import Mathlib

/-!
Verification of the CMCD CloudFront-log decoder and Timestream metric
materialization pipeline (`lambda_function.py`).

The embedding models Python strings as `List Char` (`PyStr`) and mirrors the
Python string operations used by the source (`str.split`, `str.strip`,
`str.isdigit`, `urllib.parse.unquote`, `str.replace`, `str.lower`,
dict insertion-order semantics).  Python `dict`s are modelled as association
lists with insertion-order / overwrite-in-place update (`dictInsert`).

Scope notes on the string model (all claims live in the ASCII fragment):
* `isPySpace` covers the ASCII whitespace characters stripped by `str.strip()`;
  exotic Unicode whitespace is out of scope.
* `pyIsDigit` models `str.isdigit` on ASCII: nonempty and all characters in
  `0`..`9`; Unicode digit categories are out of scope.
* `pyUnquote` models `urllib.parse.unquote` for single-byte percent escapes
  (value decoded as the corresponding code point); multi-byte UTF-8 escape
  sequences are out of scope.
* `parseDecimalQ`/`roundDouble` model `float(...)` for plain decimal literals
  (optional sign, digits, optional fraction) followed by correct IEEE-754
  binary64 round-to-nearest-even, for arguments in the normal range; exponent
  forms, `inf`/`nan` and overflow are out of scope.  Rational arithmetic is
  implemented on explicit numerator/denominator pairs (`Q`) so that the kernel
  can evaluate it.
-/

/-- Python strings, modelled as lists of characters. -/
abbrev PyStr := List Char

/-- Coercion helper from Lean string literals to the model's string type. -/
def pstr (s : String) : PyStr := s.toList

/-- ASCII whitespace as recognized by Python `str.strip()`. -/
def isPySpace (c : Char) : Bool :=
  c = ' ' || c = '\t' || c = '\n' || c = '\r' || c = '\x0b' || c = '\x0c'

/-- Python `s.strip(chars)`: drop the characters satisfying `p` from both ends. -/
def pyStripPred (p : Char → Bool) (s : PyStr) : PyStr :=
  ((s.dropWhile p).reverse.dropWhile p).reverse

/-- Python `s.strip()` (whitespace strip). -/
def pyStripWS (s : PyStr) : PyStr := pyStripPred isPySpace s

/-- Python `s.strip('"')`: removes ALL leading and trailing double quotes. -/
def stripQuotes (s : PyStr) : PyStr := pyStripPred (fun c => c = '"') s

/-- Python `s.split(sep)` for a one-character separator: splits at every
occurrence, keeping empty pieces (`"".split(c) = [""]`). -/
def pySplitChar (sep : Char) : PyStr → List PyStr
  | [] => [[]]
  | c :: rest =>
    if c = sep then [] :: pySplitChar sep rest
    else
      match pySplitChar sep rest with
      | [] => [[c]]
      | f :: fs => (c :: f) :: fs

/-- Python `s.split(sep, 1)`: `some (before, after)` when `sep` occurs,
split at the first occurrence; `none` when it does not occur. -/
def splitOnce (sep : Char) : PyStr → Option (PyStr × PyStr)
  | [] => none
  | c :: rest =>
    if c = sep then some ([], rest)
    else (splitOnce sep rest).map (fun p => (c :: p.1, p.2))

/-- Boolean substring test, modelling Python `pat in s`. -/
def hasSub (pat : PyStr) : PyStr → Bool
  | [] => pat.isEmpty
  | c :: rest => pat.isPrefixOf (c :: rest) || hasSub pat rest

/-- Python `s.replace("CMCD-", "")`: removes every (non-overlapping,
left-to-right) occurrence of the five-character pattern. -/
def removeCMCD : PyStr → PyStr
  | 'C' :: 'M' :: 'C' :: 'D' :: '-' :: rest => removeCMCD rest
  | c :: rest => c :: removeCMCD rest
  | [] => []

/-- Python `s.lower()` (ASCII case mapping, as in `Char.toLower`). -/
def pyLower (s : PyStr) : PyStr := s.map Char.toLower

/-- Python `s.isdigit()` on ASCII: nonempty and all decimal digits. -/
def pyIsDigit (s : PyStr) : Bool := !s.isEmpty && s.all Char.isDigit

/-- Numeric value of a decimal digit string. -/
def natOfDigits (s : PyStr) : ℕ := s.foldl (fun a c => 10 * a + (c.toNat - 48)) 0

/-- Decimal representation of a natural number, as a model string. -/
def pyStrNat (n : ℕ) : PyStr := (Nat.repr n).toList

/-- Python `str(...)` on an integer. -/
def pyStrInt (i : ℤ) : PyStr := (toString i).toList

/-- Digit-run body of `pyInt`. -/
def pyIntBody (t : PyStr) : Option ℤ :=
  if pyIsDigit t then some ((natOfDigits t : ℕ) : ℤ) else none

/-- Model of Python `int(s)` on strings: strip whitespace, optional sign,
then a nonempty run of decimal digits; `none` when `int()` would raise
(plain-decimal fragment; underscores and other bases out of scope). -/
def pyInt (s : PyStr) : Option ℤ :=
  match pyStripWS s with
  | [] => none
  | c :: r =>
    if c = '-' then (pyIntBody r).map (fun n => -n)
    else if c = '+' then pyIntBody r
    else pyIntBody (c :: r)

/-- Hex digit test for percent decoding. -/
def isHexDig (c : Char) : Bool :=
  c.isDigit || ('a' ≤ c && c ≤ 'f') || ('A' ≤ c && c ≤ 'F')

/-- Hex digit value. -/
def hexVal (c : Char) : ℕ :=
  if c.isDigit then c.toNat - 48
  else if 'a' ≤ c && c ≤ 'f' then c.toNat - 87
  else c.toNat - 55

/-- Model of `urllib.parse.unquote` on the single-byte fragment: `%XX` with two
hex digits decodes to the code point `XX`; malformed escapes are left intact
(Python never raises here). -/
def pyUnquote : PyStr → PyStr
  | '%' :: a :: b :: rest =>
    if isHexDig a && isHexDig b then
      Char.ofNat (16 * hexVal a + hexVal b) :: pyUnquote rest
    else '%' :: pyUnquote (a :: b :: rest)
  | c :: rest => c :: pyUnquote rest
  | [] => []

/-! ### Exact rational arithmetic on explicit pairs

`Rat` in core is not convenient for kernel evaluation, so the IEEE-754 model
uses raw numerator/denominator pairs.  All denominators constructed below are
positive. -/

/-- Unreduced rational number: `num / den`, with `den` positive by
construction at every use site. -/
structure Q where
  num : ℤ
  den : ℕ

/-- Product of two `Q` values. -/
def qMul (a b : Q) : Q := ⟨a.num * b.num, a.den * b.den⟩

/-- Comparison `a ≤ b` (valid for positive denominators). -/
def qLe (a b : Q) : Bool := a.num * (b.den : ℤ) ≤ b.num * (a.den : ℤ)

/-- Floor of a `Q` value. -/
def qFloor (a : Q) : ℤ := Int.fdiv a.num a.den

/-- Truncation toward zero, as Python `int(...)` on a float value. -/
def qTrunc (a : Q) : ℤ :=
  if a.num < 0 then -((a.num.natAbs / a.den : ℕ) : ℤ)
  else ((a.num.natAbs / a.den : ℕ) : ℤ)

/-- Fuel-based binary logarithm (structural recursion so the kernel can
evaluate it): `natLog2F n` is `⌊log2 n⌋` for `n ≥ 1`. -/
def natLog2Aux : ℕ → ℕ → ℕ
  | 0, _ => 0
  | fuel+1, n => if n ≤ 1 then 0 else natLog2Aux fuel (n / 2) + 1

/-- Binary logarithm via fuel recursion. -/
def natLog2F (n : ℕ) : ℕ := natLog2Aux n n

/-- Integer power of two as a `Q` value, for integer exponents. -/
def qPow2 (k : ℤ) : Q :=
  if 0 ≤ k then ⟨2 ^ k.toNat, 1⟩ else ⟨1, 2 ^ (-k).toNat⟩

/-- Largest `e` with `2 ^ e ≤ q`, for positive `q`. -/
def qFloorLog2 (q : Q) : ℤ :=
  let e0 : ℤ := (natLog2F q.num.natAbs : ℤ) - (natLog2F q.den : ℤ) - 1
  if qLe (qPow2 (e0 + 2)) q then e0 + 2
  else if qLe (qPow2 (e0 + 1)) q then e0 + 1
  else e0

/-- Round a `Q` value to the nearest integer, ties to even. -/
def qRoundHalfEven (x : Q) : ℤ :=
  let f := qFloor x
  let twice := 2 * (x.num - f * (x.den : ℤ))
  if twice < (x.den : ℤ) then f
  else if (x.den : ℤ) < twice then f + 1
  else if f % 2 = 0 then f else f + 1

/-- Round a positive `Q` value to the nearest IEEE-754 binary64 value
(round to nearest, ties to even), expressed exactly as a `Q`. -/
def roundDoublePos (q : Q) : Q :=
  let e := qFloorLog2 q
  let m := qRoundHalfEven (qMul q (qPow2 (52 - e)))
  if 0 ≤ 52 - e then ⟨m, 2 ^ (52 - e).toNat⟩ else ⟨m * 2 ^ (e - 52).toNat, 1⟩

/-- Round a `Q` value to binary64 (normal range; see module comment). -/
def roundDouble (q : Q) : Q :=
  if q.num = 0 then ⟨0, 1⟩
  else if q.num < 0 then
    let r := roundDoublePos ⟨-q.num, q.den⟩
    ⟨-r.num, r.den⟩
  else roundDoublePos q

/-- Parse an unsigned decimal literal (digits, optional `.` and digits, at
least one digit overall) to an exact rational. -/
def parseUnsignedQ (s : PyStr) : Option Q :=
  let ip := s.takeWhile Char.isDigit
  let r1 := s.dropWhile Char.isDigit
  match r1 with
  | [] => if ip.isEmpty then none else some ⟨natOfDigits ip, 1⟩
  | '.' :: fr =>
    let fp := fr.takeWhile Char.isDigit
    let r2 := fr.dropWhile Char.isDigit
    if r2.isEmpty && !(ip.isEmpty && fp.isEmpty) then
      some ⟨natOfDigits (ip ++ fp), 10 ^ fp.length⟩
    else none
  | _ => none

/-- Parse a signed decimal literal (after Python's whitespace strip). -/
def parseDecimalQ (s : PyStr) : Option Q :=
  match pyStripWS s with
  | '-' :: r => (parseUnsignedQ r).map (fun q => ⟨-q.num, q.den⟩)
  | '+' :: r => parseUnsignedQ r
  | r => parseUnsignedQ r

/-- Model of Python `float(s)`: parse a decimal literal and round it to the
nearest binary64 value; `none` when `float()` would raise `ValueError`. -/
def pyFloat (s : PyStr) : Option Q := (parseDecimalQ s).map roundDouble

/-! ### Data model of the decoder -/

/-- Python exceptions surfaced by the decoder. -/
inductive PyErr where
  | valueError
deriving DecidableEq, Repr

deriving instance DecidableEq for Except

/-- Python dict insertion: overwrite in place when the key exists (keeping
its position), otherwise append at the end (insertion order). -/
def dictInsert {α : Type} (k : PyStr) (v : α) : List (PyStr × α) → List (PyStr × α)
  | [] => [(k, v)]
  | (k', v') :: rest =>
    if k' = k then (k', v) :: rest else (k', v') :: dictInsert k v rest

/-- Keys of an association list are pairwise distinct (always true of lists
built by `dictInsert`). -/
def NodupKeys {α : Type} (l : List (PyStr × α)) : Prop :=
  (l.map Prod.fst).Nodup

instance {α : Type} (l : List (PyStr × α)) : Decidable (NodupKeys l) := by
  unfold NodupKeys; infer_instance

/-- Mapping of a CMCD category key to its attribute mapping. -/
abbrev CMCDFieldSet := List (PyStr × List (PyStr × PyStr))

/-- Decoded CloudFront log record (`parse_cloudfront_log`'s result dict). -/
structure LogData where
  timestamp : ℤ
  client_ip : PyStr
  status : PyStr
  uri : PyStr
  time_taken : ℕ
  edge_location : PyStr
  cmcd_data : CMCDFieldSet
deriving DecidableEq, Repr

/-- One Timestream record as built by `create_timestream_records`; the
`Dimensions` list holds (Name, Value) pairs. -/
structure TSRecord where
  Time : PyStr
  TimeUnit : PyStr
  Dimensions : List (PyStr × PyStr)
  MeasureName : PyStr
  MeasureValue : PyStr
  MeasureValueType : PyStr
deriving DecidableEq, Repr

/-! ### The decoder (translated from `lambda_function.py`) -/

/-- Loop body of `parse_cmcd_value`: for a segment containing `=`, split at
the first `=`, strip whitespace from both sides and strip quotes from the
value; segments without `=` are skipped. -/
def parseCmcdStep (parsed : List (PyStr × PyStr)) (pair : PyStr) :
    List (PyStr × PyStr) :=
  match splitOnce '=' pair with
  | some kv => dictInsert (pyStripWS kv.1) (stripQuotes (pyStripWS kv.2)) parsed
  | none => parsed

/-- Embedding of `parse_cmcd_value`: split the header value on commas and
process each segment. -/
def parse_cmcd_value (value : PyStr) : List (PyStr × PyStr) :=
  (pySplitChar ',' value).foldl parseCmcdStep []

/-- Loop body of `extract_cmcd_headers`: for a line containing `CMCD-` and a
colon, derive the category key (strip, remove `CMCD-`, lowercase) and parse
the attribute pairs from the stripped value. -/
def extractStep (cmcd_data : CMCDFieldSet) (header : PyStr) : CMCDFieldSet :=
  if hasSub (pstr ("CMCD-")) header then
    match splitOnce ':' header with
    | some parts =>
      dictInsert (pyLower (removeCMCD (pyStripWS parts.1)))
        (parse_cmcd_value (pyStripWS parts.2)) cmcd_data
    | none => cmcd_data
  else cmcd_data

/-- Embedding of `extract_cmcd_headers`: scan the decoded header block line
by line. -/
def extract_cmcd_headers (headers_str : PyStr) : CMCDFieldSet :=
  (pySplitChar '\n' headers_str).foldl extractStep []

/-- Embedding of `parse_cloudfront_log`.  `Except` carries the `ValueError`
raised by `float(fields[0])` on a non-numeric capture time; `.ok none` is the
`return None` taken on fewer than 10 tab-separated fields. -/
def parse_cloudfront_log (log_line : PyStr) : Except PyErr (Option LogData) :=
  let fields := pySplitChar '\t' (pyStripWS log_line)
  if fields.length < 10 then .ok none
  else
    let headers := if 6 < fields.length then pyUnquote (fields.getD 6 []) else []
    let cmcd_data := extract_cmcd_headers headers
    match pyFloat (fields.getD 0 []) with
    | none => .error .valueError
    | some d =>
      .ok (some
        { timestamp := qTrunc (roundDouble (qMul d ⟨1000, 1⟩))
          client_ip := fields.getD 1 []
          status := fields.getD 2 []
          uri := fields.getD 4 []
          time_taken :=
            if pyIsDigit (fields.getD 7 []) then natOfDigits (fields.getD 7 []) else 0
          edge_location := fields.getD 8 []
          cmcd_data := cmcd_data })

/-- Base dimensions of every emitted record. -/
def baseDims (ld : LogData) : List (PyStr × PyStr) :=
  [(pstr ("client_ip"), ld.client_ip),
   (pstr ("edge_location"), ld.edge_location),
   (pstr ("status"), ld.status)]

/-- The Timestream record built for one CMCD attribute. -/
def mkAttrRec (timestamp : PyStr) (dims : List (PyStr × PyStr)) (cat : PyStr)
    (kv : PyStr × PyStr) : TSRecord :=
  { Time := timestamp
    TimeUnit := pstr ("MILLISECONDS")
    Dimensions := dims ++ [(pstr ("cmcd_type"), cat)]
    MeasureName := pstr ("cmcd_") ++ kv.1
    MeasureValue := kv.2
    MeasureValueType := pstr ("BIGINT") }

/-- Records emitted for one CMCD category: one per attribute whose raw value
is all digits. -/
def cmcdCatRecords (timestamp : PyStr) (dims : List (PyStr × PyStr))
    (ct : PyStr × List (PyStr × PyStr)) : List TSRecord :=
  (ct.2.filter (fun kv => pyIsDigit kv.2)).map (mkAttrRec timestamp dims ct.1)

/-- Embedding of `create_timestream_records`: the `time_taken` record first,
then, per category and per attribute in insertion order, one record per
all-digit attribute value. -/
def create_timestream_records (ld : LogData) : List TSRecord :=
  let timestamp := pyStrInt ld.timestamp
  let dims := baseDims ld
  { Time := timestamp
    TimeUnit := pstr ("MILLISECONDS")
    Dimensions := dims
    MeasureName := pstr ("time_taken")
    MeasureValue := pyStrNat ld.time_taken
    MeasureValueType := pstr ("BIGINT") } ::
  (ld.cmcd_data.map (cmcdCatRecords timestamp dims)).flatten

/-- Per-record step of `lambda_handler`'s loop: records are contributed only
when the parse succeeded AND the record's `cmcd_data` dict is nonempty (the
`if log_data and log_data.get('cmcd_data')` truthiness test). -/
def processRecord (payload : PyStr) : Except PyErr (List TSRecord) :=
  match parse_cloudfront_log payload with
  | .error e => .error e
  | .ok none => .ok []
  | .ok (some ld) =>
    if ld.cmcd_data = [] then .ok [] else .ok (create_timestream_records ld)

/-- Embedding of `lambda_handler` over a batch of (already base64-decoded)
payload lines: the loop accumulates records and a raised exception aborts the
whole batch before anything is written. -/
def processBatch : List PyStr → Except PyErr (List TSRecord)
  | [] => .ok []
  | p :: rest =>
    match processRecord p with
    | .error e => .error e
    | .ok r =>
      match processBatch rest with
      | .error e => .error e
      | .ok rs => .ok (r ++ rs)

/-- Number of all-digit CMCD attribute values across the categories of a
field set (the number of per-attribute records the pipeline emits). -/
def numericAttrCount (d : CMCDFieldSet) : ℕ :=
  (d.map (fun ct => ct.2.countP (fun kv => pyIsDigit kv.2))).sum

/-! ### Re-encoding of a CMCD field set (for the idempotence claim) -/

/-- Join a list of strings with a one-character separator. -/
def joinSep (sep : Char) : List PyStr → PyStr
  | [] => []
  | [x] => x
  | x :: y :: xs => x ++ sep :: joinSep sep (y :: xs)

/-- Serialization of one attribute pair as `k=v`. -/
def pairStr (kv : PyStr × PyStr) : PyStr := kv.1 ++ '=' :: kv.2

/-- Serialization of an attribute mapping as `k1=v1,k2=v2`. -/
def serializeAttrs (attrs : List (PyStr × PyStr)) : PyStr :=
  joinSep ',' (attrs.map pairStr)

/-- Header line re-encoding one category of a field set. -/
def catLine (ct : PyStr × List (PyStr × PyStr)) : PyStr :=
  pstr ("CMCD-") ++ ct.1 ++ ':' :: ' ' :: serializeAttrs ct.2

/-- Modelled from the spec: the spec's re-encoding of an extracted mapping
"back to header-line form (name: k1=v1,k2=v2)" is not code of the repository;
following the spec's words and its example (header name `CMCD-Request` for
category `request`), each category is rendered as a header line
`CMCD-<category>: k1=v1,k2=v2` and the lines are joined by newlines. -/
def serializeCMCD (d : CMCDFieldSet) : PyStr :=
  joinSep '\n' (d.map catLine)

/-- Structural facts about a category key that re-extraction relies on. -/
def GoodCat (c : PyStr) : Prop :=
  pyStripWS c = c ∧ removeCMCD c = c ∧ pyLower c = c ∧ ':' ∉ c ∧ '\n' ∉ c

/-- Structural facts about an attribute key that re-extraction relies on. -/
def GoodKey (k : PyStr) : Prop :=
  pyStripWS k = k ∧ '=' ∉ k ∧ ',' ∉ k ∧ '\n' ∉ k

/-- Structural facts about an attribute value that re-extraction relies on. -/
def GoodVal (v : PyStr) : Prop :=
  pyStripWS v = v ∧ stripQuotes v = v ∧ ',' ∉ v ∧ '\n' ∉ v

/-- Conditions under which re-encoding a field set and re-extracting it is
the identity.  Extraction always produces mappings satisfying the nodup and
no-separator parts; the whitespace-stripped parts can fail (quoted values can
retain interior-edge whitespace; category removal can create trailing
whitespace), which is exactly where idempotence breaks. -/
def GoodFieldSet (d : CMCDFieldSet) : Prop :=
  NodupKeys d ∧
  ∀ p ∈ d, GoodCat p.1 ∧ NodupKeys p.2 ∧ ∀ kv ∈ p.2, GoodKey kv.1 ∧ GoodVal kv.2

instance (c : PyStr) : Decidable (GoodCat c) := by unfold GoodCat; infer_instance

instance (k : PyStr) : Decidable (GoodKey k) := by unfold GoodKey; infer_instance

instance (v : PyStr) : Decidable (GoodVal v) := by unfold GoodVal; infer_instance

instance (d : CMCDFieldSet) : Decidable (GoodFieldSet d) := by
  unfold GoodFieldSet; infer_instance

/-- Insertion of a list of pairs into a dict, in order (used to restate the
folds of the decoder). -/
def insertAll {α : Type} (acc : List (PyStr × α)) (ps : List (PyStr × α)) :
    List (PyStr × α) :=
  ps.foldl (fun a kv => dictInsert kv.1 kv.2 a) acc

/-! ### Concrete inputs used by witnesses and counterexamples -/

/-- Well-formed 10-field log line: capture time `1700000000.123`, two CMCD
categories with one numeric attribute each, time-taken `250`. -/
def c8line : PyStr :=
  pstr ("1700000000.123\t1.2.3.4\t200\t-\t/video/seg1.ts\t-\tCMCD-Request:%20br%3D4200%0ACMCD-Object:%20d%3D5000\t250\tIAD50\t-")

/-- Well-formed 10-field log line with no CMCD headers. -/
def lineNoCMCD : PyStr :=
  pstr ("1700000000.5\t1.2.3.4\t200\t-\t/a\t-\t-\t250\tIAD50\t-")

/-- Log line with fewer than 10 tab-separated fields. -/
def shortLine : PyStr := pstr ("short\tline")

/-- 10-field log line whose capture-time field is not numeric: `float()`
raises on it. -/
def badTimeLine : PyStr :=
  pstr ("abc\t1.2.3.4\t200\t-\t/a\t-\t-\t250\tIAD50\t-")

/-- 10-field log line with CMCD data and a non-digit time-taken field. -/
def c6lineAbc : PyStr :=
  pstr ("1700000000.5\t1.2.3.4\t200\t-\t/a\t-\tCMCD-Request:%20br%3D4200\tabc\tIAD50\t-")

/-- 10-field log line with CMCD data and an empty time-taken field. -/
def c6lineEmpty : PyStr :=
  pstr ("1700000000.5\t1.2.3.4\t200\t-\t/a\t-\tCMCD-Request:%20br%3D4200\t\tIAD50\t-")

/-- Header block whose quoted attribute value hides a leading space. -/
def c9header : PyStr := pstr ("CMCD-Session: k=\" a\"")

/-- Header block with two categories and plain values. -/
def c9good : PyStr :=
  pstr ("CMCD-Request: br=4200,cid=\"abc123\"\nCMCD-Object: d=5000")

/-- Header line containing `CMCD-` but no colon. -/
def c10header : PyStr := pstr ("CMCD-Request br=100")

/-- Matcher for the Timestream record of one CMCD attribute: measure name
`cmcd_<k>` and dimensions = base dimensions plus the category tag. -/
def attrRecPred (dims : List (PyStr × PyStr)) (cat k : PyStr) (r : TSRecord) :
    Bool :=
  (r.MeasureName == pstr ("cmcd_") ++ k) &&
  (r.Dimensions == dims ++ [(pstr ("cmcd_type"), cat)])

/-- Decoded form of `lineNoCMCD`. -/
def ldNoCMCD : LogData :=
  { timestamp := 1700000000500, client_ip := pstr ("1.2.3.4"),
    status := pstr ("200"), uri := pstr ("/a"), time_taken := 250,
    edge_location := pstr ("IAD50"), cmcd_data := [] }

/-- Decoded form of `c6lineAbc` (non-digit time-taken falls back to 0). -/
def ldC6Abc : LogData :=
  { timestamp := 1700000000500, client_ip := pstr ("1.2.3.4"),
    status := pstr ("200"), uri := pstr ("/a"), time_taken := 0,
    edge_location := pstr ("IAD50"),
    cmcd_data := [(pstr ("request"), [(pstr ("br"), pstr ("4200"))])] }

/-- Decoded form of `c6lineEmpty` (empty time-taken falls back to 0). -/
def ldC6Empty : LogData :=
  { timestamp := 1700000000500, client_ip := pstr ("1.2.3.4"),
    status := pstr ("200"), uri := pstr ("/a"), time_taken := 0,
    edge_location := pstr ("IAD50"),
    cmcd_data := [(pstr ("request"), [(pstr ("br"), pstr ("4200"))])] }

/-- Decoded form of `c8line`. -/
def ldC8 : LogData :=
  { timestamp := 1700000000123, client_ip := pstr ("1.2.3.4"),
    status := pstr ("200"), uri := pstr ("/video/seg1.ts"), time_taken := 250,
    edge_location := pstr ("IAD50"),
    cmcd_data := [(pstr ("request"), [(pstr ("br"), pstr ("4200"))]),
                  (pstr ("object"), [(pstr ("d"), pstr ("5000"))])] }

/-! ### Helper lemmas: splitting -/

theorem pySplitChar_ne_nil (sep : Char) (s : PyStr) : pySplitChar sep s ≠ [] := by
  induction s with
  | nil => simp [pySplitChar]
  | cons c rest ih =>
    by_cases h : c = sep
    · simp [pySplitChar, h]
    · simp only [pySplitChar, h, if_false]
      cases hs : pySplitChar sep rest with
      | nil => simp
      | cons f fs => simp

theorem pySplitChar_length (sep : Char) (s : PyStr) :
    (pySplitChar sep s).length = s.count sep + 1 := by
  induction s with
  | nil => simp [pySplitChar]
  | cons c rest ih =>
    by_cases h : c = sep
    · subst h
      simp [pySplitChar, List.count_cons, ih]
    · simp only [pySplitChar, h, if_false]
      cases hs : pySplitChar sep rest with
      | nil => exact absurd hs (pySplitChar_ne_nil sep rest)
      | cons f fs =>
        rw [hs] at ih
        simp only [List.length_cons] at ih ⊢
        rw [List.count_cons]
        simp [h, ih]

theorem splitOnce_eq_none (sep : Char) (s : PyStr) (h : sep ∉ s) :
    splitOnce sep s = none := by
  induction s with
  | nil => rfl
  | cons c rest ih =>
    have hc : ¬ c = sep := fun he => h (he ▸ List.mem_cons_self c rest)
    unfold splitOnce
    rw [if_neg hc, ih (fun hm => h (List.mem_cons_of_mem c hm))]
    rfl

theorem splitOnce_append (sep : Char) (x y : PyStr) (h : sep ∉ x) :
    splitOnce sep (x ++ sep :: y) = some (x, y) := by
  induction x with
  | nil => simp [splitOnce]
  | cons c rest ih =>
    have hc : ¬ c = sep := fun he => h (he ▸ List.mem_cons_self c rest)
    show splitOnce sep (c :: (rest ++ sep :: y)) = some (c :: rest, y)
    unfold splitOnce
    rw [if_neg hc, ih (fun hm => h (List.mem_cons_of_mem c hm))]
    rfl

theorem pySplitChar_of_not_mem (sep : Char) (s : PyStr) (h : sep ∉ s) :
    pySplitChar sep s = [s] := by
  induction s with
  | nil => rfl
  | cons c rest ih =>
    have hc : ¬ c = sep := fun he => h (he ▸ List.mem_cons_self c rest)
    simp only [pySplitChar, hc, if_false]
    rw [ih (fun hm => h (List.mem_cons_of_mem c hm))]

theorem pySplitChar_append (sep : Char) (x y : PyStr) (h : sep ∉ x) :
    pySplitChar sep (x ++ sep :: y) = x :: pySplitChar sep y := by
  induction x with
  | nil => simp [pySplitChar]
  | cons c rest ih =>
    have hc : ¬ c = sep := fun he => h (he ▸ List.mem_cons_self c rest)
    show pySplitChar sep (c :: (rest ++ sep :: y)) = (c :: rest) :: pySplitChar sep y
    simp only [pySplitChar, hc, if_false]
    rw [ih (fun hm => h (List.mem_cons_of_mem c hm))]

theorem pySplitChar_joinSep (sep : Char) (L : List PyStr) (hne : L ≠ [])
    (h : ∀ l ∈ L, sep ∉ l) : pySplitChar sep (joinSep sep L) = L := by
  induction L with
  | nil => exact absurd rfl hne
  | cons x xs ih =>
    cases xs with
    | nil =>
      show pySplitChar sep x = [x]
      exact pySplitChar_of_not_mem sep x (h x (List.mem_cons_self x []))
    | cons y ys =>
      show pySplitChar sep (x ++ sep :: joinSep sep (y :: ys)) = x :: y :: ys
      rw [pySplitChar_append sep x _ (h x (List.mem_cons_self x _))]
      rw [ih (by simp) (fun l hl => h l (List.mem_cons_of_mem x hl))]

theorem mem_joinSep (sep : Char) (L : List PyStr) (c : Char)
    (h : c ∈ joinSep sep L) : c = sep ∨ ∃ l ∈ L, c ∈ l := by
  induction L with
  | nil => simp [joinSep] at h
  | cons x xs ih =>
    cases xs with
    | nil =>
      right; exact ⟨x, List.mem_cons_self x [], h⟩
    | cons y ys =>
      rw [show joinSep sep (x :: y :: ys) = x ++ sep :: joinSep sep (y :: ys) from rfl] at h
      rcases List.mem_append.mp h with hx | hr
      · right; exact ⟨x, List.mem_cons_self x _, hx⟩
      · rcases List.mem_cons.mp hr with he | hj
        · left; exact he
        · rcases ih hj with he | ⟨l, hl, hcl⟩
          · left; exact he
          · right; exact ⟨l, List.mem_cons_of_mem x hl, hcl⟩

/-! ### Helper lemmas: stripping -/

theorem head?_dropWhile_false (p : Char → Bool) (s : PyStr) (c : Char)
    (h : (s.dropWhile p).head? = some c) : p c = false := by
  induction s with
  | nil => simp [List.dropWhile] at h
  | cons a rest ih =>
    rw [List.dropWhile_cons] at h
    by_cases hp : p a
    · rw [if_pos hp] at h; exact ih h
    · rw [if_neg hp] at h
      simp only [List.head?_cons, Option.some.injEq] at h
      subst h
      exact Bool.not_eq_true _ ▸ (by simpa using hp)

theorem getLast?_dropWhile (p : Char → Bool) (s : PyStr) (h : s.dropWhile p ≠ []) :
    (s.dropWhile p).getLast? = s.getLast? := by
  induction s with
  | nil => simp [List.dropWhile] at h
  | cons a rest ih =>
    rw [List.dropWhile_cons] at h ⊢
    by_cases hp : p a
    · rw [if_pos hp] at h ⊢
      rw [ih h]
      have hrest : rest ≠ [] := by
        intro he; rw [he] at h; simp [List.dropWhile] at h
      cases rest with
      | nil => exact absurd rfl hrest
      | cons b l => rw [List.getLast?_cons_cons]
    · rw [if_neg hp]

theorem pyStripPred_head (p : Char → Bool) (s : PyStr) (c : Char)
    (h : (pyStripPred p s).head? = some c) : p c = false := by
  unfold pyStripPred at h
  rw [List.head?_reverse] at h
  have hne : (s.dropWhile p).reverse.dropWhile p ≠ [] := by
    intro he; rw [he] at h; simp at h
  rw [getLast?_dropWhile p _ hne, List.getLast?_reverse] at h
  exact head?_dropWhile_false p s c h

theorem pyStripPred_last (p : Char → Bool) (s : PyStr) (c : Char)
    (h : (pyStripPred p s).getLast? = some c) : p c = false := by
  unfold pyStripPred at h
  rw [List.getLast?_reverse] at h
  exact head?_dropWhile_false p _ c h

theorem dropWhile_eq_self_of_head (p : Char → Bool) (s : PyStr)
    (h : ∀ c, s.head? = some c → p c = false) : s.dropWhile p = s := by
  cases s with
  | nil => rfl
  | cons a rest =>
    rw [List.dropWhile_cons, if_neg]
    simp [h a rfl]

theorem pyStripPred_eq_self (p : Char → Bool) (s : PyStr)
    (hh : ∀ c, s.head? = some c → p c = false)
    (hl : ∀ c, s.getLast? = some c → p c = false) : pyStripPred p s = s := by
  unfold pyStripPred
  rw [dropWhile_eq_self_of_head p s hh]
  rw [dropWhile_eq_self_of_head p s.reverse
    (fun c hc => hl c (by rwa [List.head?_reverse] at hc))]
  exact List.reverse_reverse s

theorem pyStripPred_cons_of_pos (p : Char → Bool) (c : Char) (s : PyStr)
    (h : p c = true) : pyStripPred p (c :: s) = pyStripPred p s := by
  unfold pyStripPred
  rw [List.dropWhile_cons, if_pos h]

theorem count_pyStripPred_le (p : Char → Bool) (c : Char) (s : PyStr) :
    (pyStripPred p s).count c ≤ s.count c := by
  unfold pyStripPred
  calc ((s.dropWhile p).reverse.dropWhile p).reverse.count c
      = ((s.dropWhile p).reverse.dropWhile p).count c := List.count_reverse c _
    _ ≤ (s.dropWhile p).reverse.count c := (List.dropWhile_sublist p).count_le c
    _ = (s.dropWhile p).count c := List.count_reverse c _
    _ ≤ s.count c := (List.dropWhile_sublist p).count_le c

/-! ### Helper lemmas: dict insertion -/

theorem mem_dictInsert {α : Type} (k : PyStr) (v : α) (l : List (PyStr × α))
    (x : PyStr × α) (h : x ∈ dictInsert k v l) : x = (k, v) ∨ x ∈ l := by
  induction l with
  | nil => simpa [dictInsert] using h
  | cons hd tl ih =>
    obtain ⟨k', v'⟩ := hd
    unfold dictInsert at h
    by_cases he : k' = k
    · rw [if_pos he] at h
      rcases List.mem_cons.mp h with hx | hx
      · left; rw [hx, he]
      · right; exact List.mem_cons_of_mem _ hx
    · rw [if_neg he] at h
      rcases List.mem_cons.mp h with hx | hx
      · right; rw [hx]; exact List.mem_cons_self _ _
      · rcases ih hx with hx' | hx'
        · left; exact hx'
        · right; exact List.mem_cons_of_mem _ hx'

theorem dictInsert_of_fresh {α : Type} (k : PyStr) (v : α) (l : List (PyStr × α))
    (h : k ∉ l.map Prod.fst) : dictInsert k v l = l ++ [(k, v)] := by
  induction l with
  | nil => rfl
  | cons hd tl ih =>
    obtain ⟨k', v'⟩ := hd
    have hk : ¬ k' = k := by
      intro he
      apply h
      rw [← he]
      exact List.mem_cons_self k' (tl.map Prod.fst)
    have htl : k ∉ tl.map Prod.fst := by
      intro hm
      exact h (List.mem_cons_of_mem k' hm)
    unfold dictInsert
    rw [if_neg hk, ih htl]
    rfl

theorem insertAll_of_fresh {α : Type} (ps : List (PyStr × α)) :
    ∀ acc : List (PyStr × α), NodupKeys ps →
    (∀ a ∈ ps.map Prod.fst, a ∉ acc.map Prod.fst) →
    insertAll acc ps = acc ++ ps := by
  induction ps with
  | nil =>
    intro acc _ _
    show acc = acc ++ []
    rw [List.append_nil]
  | cons hd tl ih =>
    intro acc hnd hfresh
    obtain ⟨k, v⟩ := hd
    have hnd' : (k :: tl.map Prod.fst).Nodup := hnd
    have hknotl : k ∉ tl.map Prod.fst := (List.nodup_cons.mp hnd').1
    have hndtl : NodupKeys tl := (List.nodup_cons.mp hnd').2
    have hkacc : k ∉ acc.map Prod.fst :=
      hfresh k (List.mem_cons_self k (tl.map Prod.fst))
    have hstep : insertAll acc ((k, v) :: tl) = insertAll (dictInsert k v acc) tl := rfl
    rw [hstep, dictInsert_of_fresh k v acc hkacc]
    have hfresh' : ∀ a ∈ tl.map Prod.fst, a ∉ (acc ++ [(k, v)]).map Prod.fst := by
      intro a ha hmem
      rw [List.map_append] at hmem
      rcases List.mem_append.mp hmem with hx | hx
      · exact hfresh a (List.mem_cons_of_mem k ha) hx
      · have hak : a = k := List.mem_singleton.mp hx
        rw [hak] at ha
        exact hknotl ha
    rw [ih (acc ++ [(k, v)]) hndtl hfresh']
    rw [List.append_assoc]
    rfl

/-! ### Helper lemmas: digits and `int()` -/

theorem isDigit_not_pySpace (c : Char) (h : c.isDigit = true) :
    isPySpace c = false := by
  cases hb : isPySpace c
  · rfl
  · exfalso
    unfold isPySpace at hb
    simp only [Bool.or_eq_true, decide_eq_true_eq] at hb
    rcases hb with ((((h1 | h1) | h1) | h1) | h1) | h1 <;>
      (subst h1; exact absurd h (by decide))

theorem pyStripWS_of_all_digits (t : PyStr) (h : t.all Char.isDigit = true) :
    pyStripWS t = t := by
  apply pyStripPred_eq_self
  · intro c hc
    exact isDigit_not_pySpace c (List.all_eq_true.mp h c (List.mem_of_mem_head? hc))
  · intro c hc
    have hrev : t.reverse.head? = some c := by rw [List.head?_reverse]; exact hc
    have hmem : c ∈ t := List.mem_reverse.mp (List.mem_of_mem_head? hrev)
    exact isDigit_not_pySpace c (List.all_eq_true.mp h c hmem)

theorem pyIsDigit_parts (t : PyStr) (h : pyIsDigit t = true) :
    (!t.isEmpty) = true ∧ t.all Char.isDigit = true := by
  unfold pyIsDigit at h
  rw [Bool.and_eq_true] at h
  exact h

theorem pyInt_of_digits (t : PyStr) (h : pyIsDigit t = true) :
    pyInt t = some ((natOfDigits t : ℕ) : ℤ) := by
  have hall : t.all Char.isDigit = true := (pyIsDigit_parts t h).2
  cases t with
  | nil =>
    exfalso
    have hh := (pyIsDigit_parts [] h).1
    simp [List.isEmpty] at hh
  | cons c r =>
    have hc : c.isDigit = true :=
      List.all_eq_true.mp hall c (List.mem_cons_self c r)
    have hcm : ¬ c = '-' := by
      intro he; rw [he] at hc; exact absurd hc (by decide)
    have hcp : ¬ c = '+' := by
      intro he; rw [he] at hc; exact absurd hc (by decide)
    unfold pyInt
    rw [pyStripWS_of_all_digits (c :: r) hall]
    show (if c = '-' then (pyIntBody r).map (fun n => -n)
      else if c = '+' then pyIntBody r else pyIntBody (c :: r)) = _
    rw [if_neg hcm, if_neg hcp]
    unfold pyIntBody
    rw [if_pos h]

/-! ### Helper lemmas: fold skipping -/

theorem parseCmcdStep_skip (acc : List (PyStr × PyStr)) (seg : PyStr)
    (h : '=' ∉ seg) : parseCmcdStep acc seg = acc := by
  unfold parseCmcdStep
  rw [splitOnce_eq_none '=' seg h]

theorem parse_foldl_skip (segs : List PyStr) :
    ∀ acc, (∀ seg ∈ segs, '=' ∉ seg) → segs.foldl parseCmcdStep acc = acc := by
  induction segs with
  | nil => intro acc _; rfl
  | cons x xs ih =>
    intro acc h
    show xs.foldl parseCmcdStep (parseCmcdStep acc x) = acc
    rw [parseCmcdStep_skip acc x (h x (List.mem_cons_self x xs))]
    exact ih acc (fun seg hs => h seg (List.mem_cons_of_mem x hs))

theorem extractStep_skip_nocolon (acc : CMCDFieldSet) (line : PyStr)
    (h : ':' ∉ line) : extractStep acc line = acc := by
  unfold extractStep
  rw [splitOnce_eq_none ':' line h]
  split <;> rfl

theorem extract_foldl_skip (lines : List PyStr) :
    ∀ acc, (∀ l ∈ lines, ':' ∉ l) → lines.foldl extractStep acc = acc := by
  induction lines with
  | nil => intro acc _; rfl
  | cons x xs ih =>
    intro acc h
    show xs.foldl extractStep (extractStep acc x) = acc
    rw [extractStep_skip_nocolon acc x (h x (List.mem_cons_self x xs))]
    exact ih acc (fun l hl => h l (List.mem_cons_of_mem x hl))

theorem mem_parse_cmcd_fold (segs : List PyStr) :
    ∀ acc x, x ∈ segs.foldl parseCmcdStep acc →
    x ∈ acc ∨ ∃ a b : PyStr, x = (pyStripWS a, stripQuotes (pyStripWS b)) := by
  induction segs with
  | nil => intro acc x hx; exact Or.inl hx
  | cons seg rest ih =>
    intro acc x hx
    rcases ih (parseCmcdStep acc seg) x hx with hx' | hx'
    · unfold parseCmcdStep at hx'
      cases hso : splitOnce '=' seg with
      | none => rw [hso] at hx'; exact Or.inl hx'
      | some kv =>
        rw [hso] at hx'
        rcases mem_dictInsert _ _ _ _ hx' with he | hm
        · exact Or.inr ⟨kv.1, kv.2, he⟩
        · exact Or.inl hm
    · exact Or.inr hx'

/-! ### Helper lemmas: record counting -/

theorem cmcdCatRecords_length (ts : PyStr) (dims : List (PyStr × PyStr))
    (ct : PyStr × List (PyStr × PyStr)) :
    (cmcdCatRecords ts dims ct).length = ct.2.countP (fun kv => pyIsDigit kv.2) := by
  unfold cmcdCatRecords
  rw [List.length_map]
  exact (List.countP_eq_length_filter _ _).symm

theorem create_records_length (ld : LogData) :
    (create_timestream_records ld).length = 1 + numericAttrCount ld.cmcd_data := by
  unfold create_timestream_records numericAttrCount
  rw [List.length_cons, List.length_flatten, List.map_map]
  have hmap : List.map (List.length ∘ cmcdCatRecords (pyStrInt ld.timestamp)
        (baseDims ld)) ld.cmcd_data
      = List.map (fun ct => ct.2.countP (fun kv => pyIsDigit kv.2)) ld.cmcd_data :=
    List.map_congr_left (fun ct _ => cmcdCatRecords_length _ _ ct)
  rw [hmap]
  exact Nat.add_comm _ 1

theorem create_records_one_time_taken (ld : LogData) :
    (create_timestream_records ld).countP
      (fun r => r.MeasureName == pstr ("time_taken")) = 1 := by
  unfold create_timestream_records
  rw [List.countP_cons]
  have h0 : ((ld.cmcd_data.map
      (cmcdCatRecords (pyStrInt ld.timestamp) (baseDims ld))).flatten.countP
      (fun r => r.MeasureName == pstr ("time_taken"))) = 0 := by
    apply List.countP_eq_zero.mpr
    intro r hr
    rcases List.mem_flatten.mp hr with ⟨l, hl, hrl⟩
    rcases List.mem_map.mp hl with ⟨ct, _, rfl⟩
    unfold cmcdCatRecords at hrl
    rcases List.mem_map.mp hrl with ⟨kv, _, rfl⟩
    simp [pstr, mkAttrRec]
  rw [h0]
  simp [pstr]

/-! ### Helper lemmas: per-attribute record counting -/

theorem beq_append_left (a b c : PyStr) : (a ++ b == a ++ c) = (b == c) := by
  cases hbc : (b == c)
  · cases hab : (a ++ b == a ++ c)
    · rfl
    · exfalso
      have he : b = c := List.append_cancel_left (eq_of_beq hab)
      rw [he, beq_self_eq_true] at hbc
      exact Bool.noConfusion hbc
  · have he : b = c := eq_of_beq hbc
    rw [he]
    exact beq_self_eq_true (a ++ c)

theorem countP_keys_filter (k v : PyStr) :
    ∀ attrs : List (PyStr × PyStr), NodupKeys attrs → (k, v) ∈ attrs →
    (attrs.filter (fun kv => pyIsDigit kv.2)).countP (fun kv' => kv'.1 == k)
    = if pyIsDigit v then 1 else 0 := by
  intro attrs
  induction attrs with
  | nil => intro _ hkv; cases hkv
  | cons hd tl ih =>
    intro hnd hkv
    obtain ⟨k1, v1⟩ := hd
    have hnd' : (k1 :: tl.map Prod.fst).Nodup := hnd
    have hk1tl : k1 ∉ tl.map Prod.fst := (List.nodup_cons.mp hnd').1
    have hndtl : NodupKeys tl := (List.nodup_cons.mp hnd').2
    rcases List.mem_cons.mp hkv with he | hm
    · injection he with he1 he2
      subst he1
      subst he2
      have h0 : (tl.filter (fun kv => pyIsDigit kv.2)).countP
          (fun kv' => kv'.1 == k) = 0 := by
        apply List.countP_eq_zero.mpr
        intro kv' hkv'
        intro hbeq
        have hmem : kv' ∈ tl := List.mem_of_mem_filter hkv'
        have hkeys : kv'.1 ∈ tl.map Prod.fst := List.mem_map_of_mem Prod.fst hmem
        rw [eq_of_beq hbeq] at hkeys
        exact hk1tl hkeys
      rw [List.filter_cons]
      cases hdig : pyIsDigit v
      · simp only [Bool.false_eq_true, if_false]
        rw [h0]
      · simp only [if_true]
        rw [List.countP_cons, h0]
        simp [beq_self_eq_true]
    · have hkne : (k1 == k) = false := by
        cases hb : (k1 == k)
        · rfl
        · exfalso
          have := eq_of_beq hb
          rw [this] at hk1tl
          exact hk1tl (List.mem_map_of_mem Prod.fst hm)
      rw [List.filter_cons]
      cases hdig1 : pyIsDigit v1
      · simp only [Bool.false_eq_true, if_false]
        exact ih hndtl hm
      · simp only [if_true]
        rw [List.countP_cons, ih hndtl hm]
        simp [hkne]

theorem attrRecPred_mkAttrRec (ts : PyStr) (dims : List (PyStr × PyStr))
    (cat k : PyStr) (kv : PyStr × PyStr) :
    attrRecPred dims cat k (mkAttrRec ts dims cat kv) = (kv.1 == k) := by
  unfold attrRecPred mkAttrRec
  show ((pstr ("cmcd_") ++ kv.1 == pstr ("cmcd_") ++ k) &&
      (dims ++ [(pstr ("cmcd_type"), cat)] ==
        dims ++ [(pstr ("cmcd_type"), cat)]))
    = (kv.1 == k)
  rw [beq_append_left, beq_self_eq_true, Bool.and_true]

theorem cmcdCatRecords_countP (ts : PyStr) (dims : List (PyStr × PyStr))
    (cat : PyStr) (attrs : List (PyStr × PyStr)) (k v : PyStr)
    (hnd : NodupKeys attrs) (hkv : (k, v) ∈ attrs) :
    (cmcdCatRecords ts dims (cat, attrs)).countP (attrRecPred dims cat k)
    = if pyIsDigit v then 1 else 0 := by
  unfold cmcdCatRecords
  rw [List.countP_map]
  have hcong : ∀ kv' ∈ attrs.filter (fun kv => pyIsDigit kv.2),
      ((attrRecPred dims cat k ∘ mkAttrRec ts dims (cat, attrs).1) kv' = true ↔
        (kv'.1 == k) = true) := by
    intro kv' _
    rw [Function.comp_apply]
    rw [show ((cat, attrs) : PyStr × List (PyStr × PyStr)).1 = cat from rfl]
    rw [attrRecPred_mkAttrRec]
  rw [List.countP_congr hcong]
  exact countP_keys_filter k v attrs hnd hkv

theorem cmcdCatRecords_countP_other (ts : PyStr) (dims : List (PyStr × PyStr))
    (cat k : PyStr) (ct : PyStr × List (PyStr × PyStr)) (hne : ct.1 ≠ cat) :
    (cmcdCatRecords ts dims ct).countP (attrRecPred dims cat k) = 0 := by
  apply List.countP_eq_zero.mpr
  intro r hr
  unfold cmcdCatRecords at hr
  rcases List.mem_map.mp hr with ⟨kv, _, rfl⟩
  intro hp
  unfold attrRecPred at hp
  rw [Bool.and_eq_true] at hp
  have h2 : dims ++ [(pstr ("cmcd_type"), ct.1)]
      = dims ++ [(pstr ("cmcd_type"), cat)] := eq_of_beq hp.2
  have h3 := List.append_cancel_left h2
  injection h3 with h4 _
  injection h4 with _ h5
  exact hne h5

theorem flatten_countP_nocat (ts : PyStr) (dims : List (PyStr × PyStr))
    (cat k : PyStr) (d : CMCDFieldSet) (hno : ∀ ct ∈ d, ct.1 ≠ cat) :
    ((d.map (cmcdCatRecords ts dims)).flatten.countP (attrRecPred dims cat k))
    = 0 := by
  apply List.countP_eq_zero.mpr
  intro r hr
  rcases List.mem_flatten.mp hr with ⟨l, hl, hrl⟩
  rcases List.mem_map.mp hl with ⟨ct, hct, rfl⟩
  intro hp
  have := List.countP_eq_zero.mp
    (cmcdCatRecords_countP_other ts dims cat k ct (hno ct hct)) r hrl
  exact this hp

theorem flatten_countP_cat (ts : PyStr) (dims : List (PyStr × PyStr))
    (cat : PyStr) (attrs : List (PyStr × PyStr)) (k v : PyStr)
    (hnda : NodupKeys attrs) (hkv : (k, v) ∈ attrs) :
    ∀ d : CMCDFieldSet, NodupKeys d → (cat, attrs) ∈ d →
    ((d.map (cmcdCatRecords ts dims)).flatten.countP (attrRecPred dims cat k))
    = if pyIsDigit v then 1 else 0 := by
  intro d
  induction d with
  | nil => intro _ hmem; cases hmem
  | cons ct rest ih =>
    intro hnd hmem
    have hnd' : (ct.1 :: rest.map Prod.fst).Nodup := hnd
    have hct1 : ct.1 ∉ rest.map Prod.fst := (List.nodup_cons.mp hnd').1
    have hndrest : NodupKeys rest := (List.nodup_cons.mp hnd').2
    rw [List.map_cons, List.flatten_cons, List.countP_append]
    rcases List.mem_cons.mp hmem with he | hm
    · subst he
      have hcat1 : cat ∉ rest.map Prod.fst := hct1
      have hrest0 : ((rest.map (cmcdCatRecords ts dims)).flatten.countP
          (attrRecPred dims cat k)) = 0 := by
        apply flatten_countP_nocat
        intro ct' hct' heq
        rw [← heq] at hcat1
        exact hcat1 (List.mem_map_of_mem Prod.fst hct')
      rw [hrest0, cmcdCatRecords_countP ts dims cat attrs k v hnda hkv,
        Nat.add_zero]
    · have hne : ct.1 ≠ cat := by
        intro heq
        rw [heq] at hct1
        exact hct1 (List.mem_map_of_mem Prod.fst hm)
      rw [cmcdCatRecords_countP_other ts dims cat k ct hne, ih hndrest hm,
        Nat.zero_add]

/-! ### Helper lemmas: decoding shape -/

theorem processBatch_cons (p : PyStr) (rest : List PyStr) :
    processBatch (p :: rest) =
      match processRecord p with
      | .error e => .error e
      | .ok r =>
        match processBatch rest with
        | .error e => .error e
        | .ok rs => .ok (r ++ rs) := rfl

theorem parse_ok_some_time_taken (line : PyStr) (ld : LogData)
    (h : parse_cloudfront_log line = .ok (some ld)) :
    ld.time_taken =
      (if pyIsDigit ((pySplitChar '\t' (pyStripWS line)).getD 7 [])
        then natOfDigits ((pySplitChar '\t' (pyStripWS line)).getD 7 []) else 0) := by
  simp only [parse_cloudfront_log] at h
  by_cases hlen : (pySplitChar '\t' (pyStripWS line)).length < 10
  · rw [if_pos hlen] at h
    exact absurd h (by simp)
  · rw [if_neg hlen] at h
    cases hfl : pyFloat ((pySplitChar '\t' (pyStripWS line)).getD 0 []) with
    | none =>
      rw [hfl] at h
      exact absurd h (by simp)
    | some d =>
      rw [hfl] at h
      simp only [Except.ok.injEq, Option.some.injEq] at h
      rw [← h]

/-! ### Claim theorems -/

/-- C1 counterexample: a successfully decoded 10-field record with an empty
CMCDFieldSet yields ZERO MetricPoints from the pipeline, not the single
`time_taken` point the claim promises: `lambda_handler` only materializes
records when `log_data.get('cmcd_data')` is truthy, i.e. the dict nonempty. -/
theorem c1_no_cmcd_counterexample :
    parse_cloudfront_log lineNoCMCD = .ok (some ldNoCMCD) ∧
    ldNoCMCD.cmcd_data = [] ∧
    processRecord lineNoCMCD = .ok [] := by decide

/-- C1 (amended): for a successfully decoded record the pipeline emits the
`create_timestream_records` output only when the CMCDFieldSet is nonempty
(exactly one `time_taken` point plus one point per all-digit CMCD attribute);
a record with empty CMCDFieldSet contributes zero points. -/
theorem c1_emission_amended (line : PyStr) (ld : LogData)
    (h : parse_cloudfront_log line = .ok (some ld)) :
    (ld.cmcd_data = [] → processRecord line = .ok []) ∧
    (ld.cmcd_data ≠ [] → processRecord line = .ok (create_timestream_records ld)) ∧
    (create_timestream_records ld).length = 1 + numericAttrCount ld.cmcd_data ∧
    (create_timestream_records ld).countP
      (fun r => r.MeasureName == pstr ("time_taken")) = 1 := by
  refine ⟨?_, ?_, create_records_length ld, create_records_one_time_taken ld⟩
  · intro he
    unfold processRecord
    rw [h]
    show (if ld.cmcd_data = [] then (Except.ok [] : Except PyErr (List TSRecord))
      else Except.ok (create_timestream_records ld)) = Except.ok []
    rw [if_pos he]
  · intro hne
    unfold processRecord
    rw [h]
    show (if ld.cmcd_data = [] then (Except.ok [] : Except PyErr (List TSRecord))
      else Except.ok (create_timestream_records ld))
      = Except.ok (create_timestream_records ld)
    rw [if_neg hne]

/-- Witness for `c1_emission_amended` at the concrete line `c8line`. -/
theorem c1_emission_witness :
    parse_cloudfront_log c8line = .ok (some ldC8) ∧
    processRecord c8line = .ok (create_timestream_records ldC8) ∧
    (create_timestream_records ldC8).length = 1 + numericAttrCount ldC8.cmcd_data :=
  ⟨by decide,
   (c1_emission_amended c8line ldC8 (by decide)).2.1 (by decide),
   (c1_emission_amended c8line ldC8 (by decide)).2.2.1⟩

/-- C2 counterexample: a record whose capture-time field is non-numeric makes
`float()` raise, and the exception aborts the WHOLE batch: the other record
of the batch (which alone produces records) gets nothing emitted. -/
theorem c2_batch_abort_counterexample :
    processBatch [badTimeLine, c8line] = .error .valueError ∧
    processBatch [c8line] = .ok (create_timestream_records ldC8) := by decide

/-- C2 (amended): a record that decodes to `None` (fewer than 10 fields)
affects only itself, but a record that raises during decoding (non-numeric
capture time) aborts processing of the entire batch with no records written. -/
theorem c2_per_record_amended (line : PyStr) (rest : List PyStr) :
    (parse_cloudfront_log line = .ok none →
      processBatch (line :: rest) = processBatch rest) ∧
    (∀ e, parse_cloudfront_log line = .error e →
      processBatch (line :: rest) = .error e) := by
  constructor
  · intro h
    have hpr : processRecord line = .ok [] := by
      unfold processRecord
      rw [h]
    rw [processBatch_cons, hpr]
    cases hpb : processBatch rest with
    | error e => rfl
    | ok rs =>
      show Except.ok ([] ++ rs) = Except.ok rs
      rw [List.nil_append]
  · intro e h
    have hpr : processRecord line = .error e := by
      unfold processRecord
      rw [h]
    rw [processBatch_cons, hpr]

/-- Witness for `c2_per_record_amended` at concrete lines. -/
theorem c2_per_record_witness :
    parse_cloudfront_log shortLine = .ok none ∧
    processBatch [shortLine, c8line] = processBatch [c8line] ∧
    parse_cloudfront_log badTimeLine = .error .valueError ∧
    processBatch [badTimeLine, c8line] = .error .valueError :=
  ⟨by decide, (c2_per_record_amended shortLine [c8line]).1 (by decide),
   by decide, (c2_per_record_amended badTimeLine [c8line]).2 .valueError (by decide)⟩

/-- C3: any input line splitting into fewer than 10 tab-separated fields
decodes to `None` without raising, and contributes zero records. -/
theorem c3_short_line (line : PyStr)
    (h : (pySplitChar '\t' line).length < 10) :
    parse_cloudfront_log line = .ok none ∧ processRecord line = .ok [] := by
  have hcount : (pySplitChar '\t' (pyStripWS line)).length < 10 := by
    rw [pySplitChar_length] at h ⊢
    have hc := count_pyStripPred_le isPySpace '\t' line
    unfold pyStripWS
    omega
  have h1 : parse_cloudfront_log line = .ok none := by
    simp only [parse_cloudfront_log]
    rw [if_pos hcount]
  refine ⟨h1, ?_⟩
  unfold processRecord
  rw [h1]

/-- Witness for `c3_short_line` at the concrete `shortLine`. -/
theorem c3_short_line_witness :
    (pySplitChar '\t' shortLine).length < 10 ∧
    parse_cloudfront_log shortLine = .ok none ∧
    processRecord shortLine = .ok [] :=
  ⟨by decide, (c3_short_line shortLine (by decide)).1,
   (c3_short_line shortLine (by decide)).2⟩

/-- C4 counterexample: a valueless key (`su`, and `startup`) is NOT preserved
in the attribute mapping; segments without `=` are silently dropped. -/
theorem c4_flag_dropped_counterexample :
    parse_cmcd_value (pstr ("bl=100,su")) = [(pstr ("bl"), pstr ("100"))] ∧
    parse_cmcd_value (pstr ("startup")) = [] := by decide

/-- C4 (amended): a key appearing without `=` is dropped from the resulting
attribute mapping; a value string none of whose comma-segments contains `=`
parses to the empty mapping. -/
theorem c4_flags_amended (v : PyStr)
    (h : ∀ seg ∈ pySplitChar ',' v, '=' ∉ seg) : parse_cmcd_value v = [] := by
  unfold parse_cmcd_value
  exact parse_foldl_skip _ [] h

/-- Witness for `c4_flags_amended` at the concrete segment `su`. -/
theorem c4_flags_witness :
    (∀ seg ∈ pySplitChar ',' (pstr ("su")), '=' ∉ seg) ∧
    parse_cmcd_value (pstr ("su")) = [] :=
  ⟨by decide, c4_flags_amended (pstr ("su")) (by decide)⟩

/-- C5 counterexample: a value carrying doubled quotes on each side does NOT
retain one quote per side: `strip('"')` removes ALL leading and trailing
quote characters. -/
theorem c5_quote_counterexample :
    parse_cmcd_value (pstr ("cid=\"\"abc\"\"")) = [(pstr ("cid"), pstr ("abc"))] ∧
    parse_cmcd_value (pstr ("cid=\"\"abc\"\""))
      ≠ [(pstr ("cid"), pstr ("\"abc\""))] := by decide

/-- C5 (amended): each `=`-segment is split at the first `=`, whitespace is
trimmed from key and value, and ALL leading and trailing double quotes are
stripped from the value; hence `"abc123"` yields `abc123`, doubled quotes are
removed entirely, and no parsed value starts or ends with a quote. -/
theorem c5_attr_parsing_amended :
    parse_cmcd_value (pstr ("br=4200,cid=\"abc123\""))
      = [(pstr ("br"), pstr ("4200")), (pstr ("cid"), pstr ("abc123"))] ∧
    parse_cmcd_value (pstr ("cid=\"\"abc\"\"")) = [(pstr ("cid"), pstr ("abc"))] ∧
    ∀ s k v, (k, v) ∈ parse_cmcd_value s →
      v.head? ≠ some '"' ∧ v.getLast? ≠ some '"' := by
  refine ⟨by decide, by decide, ?_⟩
  intro s k v hm
  unfold parse_cmcd_value at hm
  rcases mem_parse_cmcd_fold _ _ _ hm with hx | ⟨a, b, he⟩
  · cases hx
  · injection he with h1 h2
    subst h2
    constructor
    · intro hh
      have := pyStripPred_head (fun c => c = '"') (pyStripWS b) '"' hh
      simp at this
    · intro hl
      have := pyStripPred_last (fun c => c = '"') (pyStripWS b) '"' hl
      simp at this

/-- Witness for `c5_attr_parsing_amended` (universal part) at `cid="x"`. -/
theorem c5_attr_parsing_witness :
    (pstr ("cid"), pstr ("x")) ∈ parse_cmcd_value (pstr ("cid=\"x\"")) ∧
    ((pstr ("x")).head? ≠ some '"' ∧ (pstr ("x")).getLast? ≠ some '"') :=
  ⟨by decide, c5_attr_parsing_amended.2.2 (pstr ("cid=\"x\"")) (pstr ("cid"))
    (pstr ("x")) (by decide)⟩

/-- C6 counterexample: for the empty time-taken field, the claim's condition
"every character of the field is a decimal digit" holds vacuously, yet the
field is NOT parsed as an integer (`int("")` raises; `pyInt` is `none`):
`isdigit()` is false on the empty string and the 0 fallback is taken. -/
theorem c6_empty_field_counterexample :
    (pySplitChar '\t' (pyStripWS c6lineEmpty)).getD 7 [] = ([] : PyStr) ∧
    ([] : PyStr).all Char.isDigit = true ∧
    pyInt ([] : PyStr) = none ∧
    pyIsDigit ([] : PyStr) = false ∧
    parse_cloudfront_log c6lineEmpty = .ok (some ldC6Empty) ∧
    ldC6Empty.time_taken = 0 := by decide

/-- C6 (amended): the time-taken field is parsed as an integer iff it is
NONEMPTY and all-digits (Python `isdigit`), else the record's value is 0 and
the record is not failed; field `250` yields MeasureValue `250` and field
`abc` yields MeasureValue `0`. -/
theorem c6_time_taken_amended :
    (∀ line ld, parse_cloudfront_log line = .ok (some ld) →
      (pyIsDigit ((pySplitChar '\t' (pyStripWS line)).getD 7 []) = true →
        pyInt ((pySplitChar '\t' (pyStripWS line)).getD 7 [])
          = some ((ld.time_taken : ℕ) : ℤ)) ∧
      (pyIsDigit ((pySplitChar '\t' (pyStripWS line)).getD 7 []) = false →
        ld.time_taken = 0)) ∧
    (pySplitChar '\t' (pyStripWS c8line)).getD 7 [] = pstr ("250") ∧
    parse_cloudfront_log c8line = .ok (some ldC8) ∧
    (create_timestream_records ldC8).head?.map TSRecord.MeasureValue
      = some (pstr ("250")) ∧
    (pySplitChar '\t' (pyStripWS c6lineAbc)).getD 7 [] = pstr ("abc") ∧
    parse_cloudfront_log c6lineAbc = .ok (some ldC6Abc) ∧
    (create_timestream_records ldC6Abc).head?.map TSRecord.MeasureValue
      = some (pstr ("0")) := by
  refine ⟨?_, by decide, by decide, by decide, by decide, by decide, by decide⟩
  intro line ld h
  have hshape := parse_ok_some_time_taken line ld h
  constructor
  · intro hdig
    rw [pyInt_of_digits _ hdig]
    rw [hshape, if_pos hdig]
  · intro hndig
    rw [hshape]
    have hcond : ¬ (pyIsDigit ((pySplitChar '\t' (pyStripWS line)).getD 7 [])
        = true) := by
      rw [hndig]
      exact Bool.false_ne_true
    rw [if_neg hcond]

/-- Witness for the universal part of `c6_time_taken_amended` at `c8line`. -/
theorem c6_time_taken_witness :
    parse_cloudfront_log c8line = .ok (some ldC8) ∧
    pyIsDigit ((pySplitChar '\t' (pyStripWS c8line)).getD 7 []) = true ∧
    pyInt ((pySplitChar '\t' (pyStripWS c8line)).getD 7 [])
      = some ((ldC8.time_taken : ℕ) : ℤ) :=
  ⟨by decide, by decide,
   (c6_time_taken_amended.1 c8line ldC8 (by decide)).1 (by decide)⟩

/-- C7: for a record's CMCD field set with the dict invariants (keys unique
at both levels), each attribute with an all-digit raw value is emitted as
exactly one record with name `cmcd_<key>`, dimensions = base dimensions plus
the `cmcd_type` category tag, MeasureValue the raw value and BIGINT type;
a non-digit raw value (e.g. `3.14`) produces no record for that attribute
while other points of the record are still counted separately. -/
theorem c7_attr_emission (ld : LogData) (hnd : NodupKeys ld.cmcd_data)
    (hna : ∀ p ∈ ld.cmcd_data, NodupKeys p.2)
    (cat : PyStr) (attrs : List (PyStr × PyStr)) (k v : PyStr)
    (hct : (cat, attrs) ∈ ld.cmcd_data) (hkv : (k, v) ∈ attrs) :
    ((create_timestream_records ld).countP (attrRecPred (baseDims ld) cat k)
      = if pyIsDigit v then 1 else 0) ∧
    (pyIsDigit v = true →
      mkAttrRec (pyStrInt ld.timestamp) (baseDims ld) cat (k, v)
        ∈ create_timestream_records ld) := by
  constructor
  · unfold create_timestream_records
    rw [List.countP_cons]
    have htt : attrRecPred (baseDims ld) cat k
        { Time := pyStrInt ld.timestamp, TimeUnit := pstr ("MILLISECONDS"),
          Dimensions := baseDims ld, MeasureName := pstr ("time_taken"),
          MeasureValue := pyStrNat ld.time_taken,
          MeasureValueType := pstr ("BIGINT") } = false := by
      simp [attrRecPred, pstr]
    rw [htt]
    rw [flatten_countP_cat (pyStrInt ld.timestamp) (baseDims ld) cat attrs k v
      (hna (cat, attrs) hct) hkv ld.cmcd_data hnd hct]
    simp
  · intro hdig
    apply List.mem_cons_of_mem
    apply List.mem_flatten.mpr
    refine ⟨cmcdCatRecords (pyStrInt ld.timestamp) (baseDims ld) (cat, attrs),
      List.mem_map_of_mem _ hct, ?_⟩
    unfold cmcdCatRecords
    exact List.mem_map_of_mem _ (List.mem_filter.mpr ⟨hkv, hdig⟩)

/-- Witness for `c7_attr_emission` at the concrete record `ldC8`. -/
theorem c7_attr_emission_witness :
    NodupKeys ldC8.cmcd_data ∧
    ((create_timestream_records ldC8).countP
      (attrRecPred (baseDims ldC8) (pstr ("request")) (pstr ("br")))
      = if pyIsDigit (pstr ("4200")) then 1 else 0) ∧
    (mkAttrRec (pyStrInt ldC8.timestamp) (baseDims ldC8) (pstr ("request"))
      (pstr ("br"), pstr ("4200")) ∈ create_timestream_records ldC8) :=
  ⟨by decide,
   (c7_attr_emission ldC8 (by decide) (by decide) (pstr ("request"))
     [(pstr ("br"), pstr ("4200"))] (pstr ("br")) (pstr ("4200"))
     (by decide) (by decide)).1,
   (c7_attr_emission ldC8 (by decide) (by decide) (pstr ("request"))
     [(pstr ("br"), pstr ("4200"))] (pstr ("br")) (pstr ("4200"))
     (by decide) (by decide)).2 (by decide)⟩

/-- C8: the capture time is parsed as an IEEE-754 double, multiplied by 1000
(with double rounding) and truncated: the 10-field line with capture time
`1700000000.123` and two CMCD categories of one numeric attribute each
produces exactly 3 records, all carrying Time `1700000000123`. -/
theorem c8_end_to_end :
    processRecord c8line = .ok
      [{ Time := pstr ("1700000000123"), TimeUnit := pstr ("MILLISECONDS"),
         Dimensions := [(pstr ("client_ip"), pstr ("1.2.3.4")),
                        (pstr ("edge_location"), pstr ("IAD50")),
                        (pstr ("status"), pstr ("200"))],
         MeasureName := pstr ("time_taken"), MeasureValue := pstr ("250"),
         MeasureValueType := pstr ("BIGINT") },
       { Time := pstr ("1700000000123"), TimeUnit := pstr ("MILLISECONDS"),
         Dimensions := [(pstr ("client_ip"), pstr ("1.2.3.4")),
                        (pstr ("edge_location"), pstr ("IAD50")),
                        (pstr ("status"), pstr ("200")),
                        (pstr ("cmcd_type"), pstr ("request"))],
         MeasureName := pstr ("cmcd_br"), MeasureValue := pstr ("4200"),
         MeasureValueType := pstr ("BIGINT") },
       { Time := pstr ("1700000000123"), TimeUnit := pstr ("MILLISECONDS"),
         Dimensions := [(pstr ("client_ip"), pstr ("1.2.3.4")),
                        (pstr ("edge_location"), pstr ("IAD50")),
                        (pstr ("status"), pstr ("200")),
                        (pstr ("cmcd_type"), pstr ("object"))],
         MeasureName := pstr ("cmcd_d"), MeasureValue := pstr ("5000"),
         MeasureValueType := pstr ("BIGINT") }] := by decide

/-- C10: `extract_cmcd_headers` is total and a line with no colon adds no
category entry: a header string all of whose lines lack a colon (even if
they contain `CMCD-`) extracts to the empty mapping, with no error. -/
theorem c10_colonless_ignored (s : PyStr)
    (h : ∀ l ∈ pySplitChar '\n' s, ':' ∉ l) : extract_cmcd_headers s = [] := by
  unfold extract_cmcd_headers
  exact extract_foldl_skip _ [] h

/-- Witness for `c10_colonless_ignored` at a `CMCD-` line without a colon. -/
theorem c10_colonless_witness :
    (∀ l ∈ pySplitChar '\n' c10header, ':' ∉ l) ∧
    extract_cmcd_headers c10header = [] :=
  ⟨by decide, c10_colonless_ignored c10header (by decide)⟩

/-- C9 counterexample: extraction is NOT idempotent under re-encoding: the
quoted value `" a"` keeps its leading space after quote-stripping, and the
re-encoded line `CMCD-session: k= a` re-parses the value to `a`. -/
theorem c9_roundtrip_counterexample :
    extract_cmcd_headers c9header
      = [(pstr ("session"), [(pstr ("k"), pstr (" a"))])] ∧
    extract_cmcd_headers (serializeCMCD (extract_cmcd_headers c9header))
      = [(pstr ("session"), [(pstr ("k"), pstr ("a"))])] ∧
    extract_cmcd_headers (serializeCMCD (extract_cmcd_headers c9header))
      ≠ extract_cmcd_headers c9header := by decide

/-! ### Helper lemmas: re-encoding roundtrip -/

theorem stripPred_fix_head (p : Char → Bool) (s : PyStr) (c : Char)
    (hfix : pyStripPred p s = s) (hc : s.head? = some c) : p c = false :=
  pyStripPred_head p s c (by rw [hfix]; exact hc)

theorem stripPred_fix_last (p : Char → Bool) (s : PyStr) (c : Char)
    (hfix : pyStripPred p s = s) (hc : s.getLast? = some c) : p c = false :=
  pyStripPred_last p s c (by rw [hfix]; exact hc)

theorem pyStripWS_cons_space (s : PyStr) : pyStripWS (' ' :: s) = pyStripWS s :=
  pyStripPred_cons_of_pos isPySpace ' ' s (by decide)

theorem isPrefixOf_append (pat s : PyStr) : pat.isPrefixOf (pat ++ s) = true := by
  induction pat with
  | nil =>
    cases s with
    | nil => rfl
    | cons c cs => rfl
  | cons c cs ih =>
    show ((c == c) && cs.isPrefixOf (cs ++ s)) = true
    rw [beq_self_eq_true, ih, Bool.and_true]

theorem pairStr_ne_nil (kv : PyStr × PyStr) : pairStr kv ≠ [] := by
  unfold pairStr
  cases h : kv.1 with
  | nil => simp
  | cons c cs => simp

theorem pairStr_head_not_space (kv : PyStr × PyStr) (hk : GoodKey kv.1) :
    ∀ c, (pairStr kv).head? = some c → isPySpace c = false := by
  intro c hc
  unfold pairStr at hc
  cases hk1 : kv.1 with
  | nil =>
    rw [hk1] at hc
    simp only [List.nil_append, List.head?_cons, Option.some.injEq] at hc
    rw [← hc]
    decide
  | cons c0 cs =>
    rw [hk1] at hc
    simp only [List.cons_append, List.head?_cons, Option.some.injEq] at hc
    subst hc
    exact stripPred_fix_head isPySpace kv.1 c0 hk.1 (by rw [hk1]; rfl)

theorem pairStr_last_not_space (kv : PyStr × PyStr) (hv : GoodVal kv.2) :
    ∀ c, (pairStr kv).getLast? = some c → isPySpace c = false := by
  intro c hc
  unfold pairStr at hc
  rw [List.getLast?_append] at hc
  cases hv2 : kv.2 with
  | nil =>
    rw [hv2] at hc
    have hcc : c = '=' := by
      rw [List.getLast?_singleton, Option.or_some, Option.some.injEq] at hc
      exact hc.symm
    rw [hcc]
    decide
  | cons c0 cs =>
    rw [hv2] at hc
    have hne : (c0 :: cs : PyStr) ≠ [] := List.cons_ne_nil c0 cs
    have hsome : ('=' :: c0 :: cs : PyStr).getLast? = some ((c0 :: cs).getLast hne) := by
      rw [List.getLast?_cons_cons]
      exact List.getLast?_eq_getLast (c0 :: cs) hne
    rw [hsome, Option.or_some, Option.some.injEq] at hc
    apply stripPred_fix_last isPySpace kv.2 c hv.1
    rw [hv2, List.getLast?_eq_getLast (c0 :: cs) hne, hc]

theorem joinSep_map_pairStr_ne_nil (kv : PyStr × PyStr)
    (rest : List (PyStr × PyStr)) :
    joinSep ',' ((kv :: rest).map pairStr) ≠ [] := by
  cases rest with
  | nil => exact pairStr_ne_nil kv
  | cons kv2 rest2 =>
    show pairStr kv ++ ',' :: joinSep ',' ((kv2 :: rest2).map pairStr) ≠ []
    simp

theorem joinSep_pairs_head_not_space (attrs : List (PyStr × PyStr))
    (h : ∀ kv ∈ attrs, GoodKey kv.1) :
    ∀ c, (joinSep ',' (attrs.map pairStr)).head? = some c →
      isPySpace c = false := by
  intro c hc
  cases attrs with
  | nil => simp [joinSep] at hc
  | cons kv rest =>
    cases rest with
    | nil => exact pairStr_head_not_space kv (h kv (List.mem_cons_self kv [])) c hc
    | cons kv2 rest2 =>
      rw [show joinSep ',' ((kv :: kv2 :: rest2).map pairStr)
        = pairStr kv ++ ',' :: joinSep ',' ((kv2 :: rest2).map pairStr)
        from rfl] at hc
      rw [List.head?_append] at hc
      cases hp : (pairStr kv).head? with
      | none =>
        exfalso
        apply pairStr_ne_nil kv
        cases hpk : pairStr kv with
        | nil => rfl
        | cons a as => rw [hpk] at hp; exact Option.noConfusion hp
      | some c0 =>
        rw [hp, Option.or_some, Option.some.injEq] at hc
        apply pairStr_head_not_space kv (h kv (List.mem_cons_self kv _)) c
        rw [hp, hc]

theorem joinSep_pairs_last_not_space (attrs : List (PyStr × PyStr))
    (h : ∀ kv ∈ attrs, GoodVal kv.2) :
    ∀ c, (joinSep ',' (attrs.map pairStr)).getLast? = some c →
      isPySpace c = false := by
  induction attrs with
  | nil => intro c hc; simp [joinSep] at hc
  | cons kv rest ih =>
    intro c hc
    cases rest with
    | nil => exact pairStr_last_not_space kv (h kv (List.mem_cons_self kv [])) c hc
    | cons kv2 rest2 =>
      rw [show joinSep ',' ((kv :: kv2 :: rest2).map pairStr)
        = pairStr kv ++ ',' :: joinSep ',' ((kv2 :: rest2).map pairStr)
        from rfl] at hc
      rw [List.getLast?_append] at hc
      have hJne : joinSep ',' ((kv2 :: rest2).map pairStr) ≠ [] :=
        joinSep_map_pairStr_ne_nil kv2 rest2
      cases hJ : joinSep ',' ((kv2 :: rest2).map pairStr) with
      | nil => exact absurd hJ hJne
      | cons j js =>
        rw [hJ, List.getLast?_cons_cons] at hc
        have hne2 : (j :: js : PyStr) ≠ [] := List.cons_ne_nil j js
        rw [List.getLast?_eq_getLast (j :: js) hne2, Option.or_some,
          Option.some.injEq] at hc
        apply ih (fun kv' hkv' => h kv' (List.mem_cons_of_mem kv hkv')) c
        rw [hJ, List.getLast?_eq_getLast (j :: js) hne2, hc]

theorem serializeAttrs_strip_fix (attrs : List (PyStr × PyStr))
    (h : ∀ kv ∈ attrs, GoodKey kv.1 ∧ GoodVal kv.2) :
    pyStripWS (serializeAttrs attrs) = serializeAttrs attrs := by
  unfold serializeAttrs
  apply pyStripPred_eq_self
  · exact joinSep_pairs_head_not_space attrs (fun kv hkv => (h kv hkv).1)
  · exact joinSep_pairs_last_not_space attrs (fun kv hkv => (h kv hkv).2)

theorem not_mem_pairStr (kv : PyStr × PyStr) (c : Char) (hk : c ∉ kv.1)
    (hv : c ∉ kv.2) (hne : c ≠ '=') : c ∉ pairStr kv := by
  unfold pairStr
  intro hc
  rcases List.mem_append.mp hc with h1 | h2
  · exact hk h1
  · rcases List.mem_cons.mp h2 with he | h3
    · exact hne he
    · exact hv h3

theorem newline_not_mem_serializeAttrs (attrs : List (PyStr × PyStr))
    (h : ∀ kv ∈ attrs, GoodKey kv.1 ∧ GoodVal kv.2) :
    '\n' ∉ serializeAttrs attrs := by
  intro hc
  rcases mem_joinSep ',' (attrs.map pairStr) '\n' hc with he | ⟨l, hl, hcl⟩
  · exact absurd he (by decide)
  · rcases List.mem_map.mp hl with ⟨kv, hkv, rfl⟩
    exact not_mem_pairStr kv '\n' (h kv hkv).1.2.2.2 (h kv hkv).2.2.2.2
      (by decide) hcl

theorem comma_not_mem_pairStr (kv : PyStr × PyStr) (hk : GoodKey kv.1)
    (hv : GoodVal kv.2) : ',' ∉ pairStr kv :=
  not_mem_pairStr kv ',' hk.2.2.1 hv.2.2.1 (by decide)

theorem newline_not_mem_catLine (ct : PyStr × List (PyStr × PyStr))
    (hcat : GoodCat ct.1) (h : ∀ kv ∈ ct.2, GoodKey kv.1 ∧ GoodVal kv.2) :
    '\n' ∉ catLine ct := by
  unfold catLine
  intro hm
  rcases List.mem_append.mp hm with h1 | h2
  · rcases List.mem_append.mp h1 with h1a | h1b
    · exact absurd h1a (by decide)
    · exact hcat.2.2.2.2 h1b
  · rcases List.mem_cons.mp h2 with he | h5
    · exact absurd he (by decide)
    · rcases List.mem_cons.mp h5 with he | h6
      · exact absurd he (by decide)
      · exact newline_not_mem_serializeAttrs ct.2 h h6

theorem colon_not_mem_name (cat : PyStr) (hc : ':' ∉ cat) :
    ':' ∉ pstr ("CMCD-") ++ cat := by
  intro hm
  rcases List.mem_append.mp hm with h1 | h2
  · exact absurd h1 (by decide)
  · exact hc h2

theorem name_strip_fix (cat : PyStr) (hstrip : pyStripWS cat = cat) :
    pyStripWS (pstr ("CMCD-") ++ cat) = pstr ("CMCD-") ++ cat := by
  apply pyStripPred_eq_self
  · intro c hcc
    have hcC : c = 'C' := by
      rw [show pstr ("CMCD-") ++ cat = 'C' :: (pstr ("MCD-") ++ cat) from rfl] at hcc
      rw [List.head?_cons, Option.some.injEq] at hcc
      exact hcc.symm
    rw [hcC]
    decide
  · intro c hcc
    rw [List.getLast?_append] at hcc
    cases hcat : cat with
    | nil =>
      rw [hcat] at hcc
      rw [show (([] : PyStr)).getLast? = none from rfl, Option.none_or] at hcc
      have hcd : c = '-' := by
        rw [show (pstr ("CMCD-")).getLast? = some '-' from by decide,
          Option.some.injEq] at hcc
        exact hcc.symm
      rw [hcd]
      decide
    | cons c0 cs =>
      rw [hcat] at hcc
      have hne : (c0 :: cs : PyStr) ≠ [] := List.cons_ne_nil c0 cs
      rw [List.getLast?_eq_getLast (c0 :: cs) hne, Option.or_some,
        Option.some.injEq] at hcc
      apply stripPred_fix_last isPySpace cat c hstrip
      rw [hcat, List.getLast?_eq_getLast (c0 :: cs) hne, hcc]

theorem parseCmcdStep_pairStr (acc : List (PyStr × PyStr)) (kv : PyStr × PyStr)
    (hk : GoodKey kv.1) (hv : GoodVal kv.2) :
    parseCmcdStep acc (pairStr kv) = dictInsert kv.1 kv.2 acc := by
  unfold parseCmcdStep
  rw [show pairStr kv = kv.1 ++ '=' :: kv.2 from rfl]
  rw [splitOnce_append '=' kv.1 kv.2 hk.2.1]
  show dictInsert (pyStripWS kv.1) (stripQuotes (pyStripWS kv.2)) acc = _
  rw [hk.1, hv.1, hv.2.1]

theorem parse_serializeAttrs (attrs : List (PyStr × PyStr))
    (hnd : NodupKeys attrs)
    (h : ∀ kv ∈ attrs, GoodKey kv.1 ∧ GoodVal kv.2) :
    parse_cmcd_value (serializeAttrs attrs) = attrs := by
  cases attrs with
  | nil => rfl
  | cons kv rest =>
    unfold parse_cmcd_value serializeAttrs
    rw [pySplitChar_joinSep ',' ((kv :: rest).map pairStr)
      (by simp)
      (fun l hl => by
        rcases List.mem_map.mp hl with ⟨kv', hkv', rfl⟩
        exact comma_not_mem_pairStr kv' (h kv' hkv').1 (h kv' hkv').2)]
    rw [List.foldl_map]
    have hext := List.foldl_ext (fun acc x => parseCmcdStep acc (pairStr x))
      (fun acc kv' => dictInsert kv'.1 kv'.2 acc) ([] : List (PyStr × PyStr))
      (fun acc x hx => parseCmcdStep_pairStr acc x (h x hx).1 (h x hx).2)
    rw [hext]
    have hia := insertAll_of_fresh (kv :: rest) [] hnd (fun a _ => List.not_mem_nil a)
    unfold insertAll at hia
    rw [List.nil_append] at hia
    exact hia

theorem extractStep_catLine (acc : CMCDFieldSet)
    (ct : PyStr × List (PyStr × PyStr))
    (hcat : GoodCat ct.1) (hnd : NodupKeys ct.2)
    (h : ∀ kv ∈ ct.2, GoodKey kv.1 ∧ GoodVal kv.2) :
    extractStep acc (catLine ct) = dictInsert ct.1 ct.2 acc := by
  obtain ⟨cat, attrs⟩ := ct
  obtain ⟨hstrip, hrem, hlow, hcolon, hnl⟩ := hcat
  have hassub : hasSub (pstr ("CMCD-")) (catLine (cat, attrs)) = true := by
    have hshape : catLine (cat, attrs)
        = pstr ("CMCD-") ++ (cat ++ ':' :: ' ' :: serializeAttrs attrs) := by
      unfold catLine
      rw [List.append_assoc]
    rw [hshape]
    show ((pstr ("CMCD-")).isPrefixOf
        (pstr ("CMCD-") ++ (cat ++ ':' :: ' ' :: serializeAttrs attrs))
      || hasSub (pstr ("CMCD-"))
        (pstr ("MCD-") ++ (cat ++ ':' :: ' ' :: serializeAttrs attrs))) = true
    rw [isPrefixOf_append, Bool.true_or]
  have hsplit : splitOnce ':' (catLine (cat, attrs))
      = some (pstr ("CMCD-") ++ cat, ' ' :: serializeAttrs attrs) := by
    show splitOnce ':'
      ((pstr ("CMCD-") ++ cat) ++ ':' :: (' ' :: serializeAttrs attrs)) = _
    exact splitOnce_append ':' (pstr ("CMCD-") ++ cat)
      (' ' :: serializeAttrs attrs) (colon_not_mem_name cat hcolon)
  unfold extractStep
  rw [if_pos hassub, hsplit]
  show dictInsert (pyLower (removeCMCD (pyStripWS (pstr ("CMCD-") ++ cat))))
    (parse_cmcd_value (pyStripWS (' ' :: serializeAttrs attrs))) acc = _
  rw [name_strip_fix cat hstrip]
  rw [show removeCMCD (pstr ("CMCD-") ++ cat) = removeCMCD cat from rfl]
  rw [hrem, hlow]
  rw [pyStripWS_cons_space, serializeAttrs_strip_fix attrs h]
  rw [parse_serializeAttrs attrs hnd h]

theorem cmcd_roundtrip (d : CMCDFieldSet) (h : GoodFieldSet d) :
    extract_cmcd_headers (serializeCMCD d) = d := by
  obtain ⟨hnd, hmem⟩ := h
  cases d with
  | nil => rfl
  | cons ct rest =>
    unfold extract_cmcd_headers serializeCMCD
    rw [pySplitChar_joinSep '\n' ((ct :: rest).map catLine)
      (by simp)
      (fun l hl => by
        rcases List.mem_map.mp hl with ⟨ct', hct', rfl⟩
        exact newline_not_mem_catLine ct' (hmem ct' hct').1 (hmem ct' hct').2.2)]
    rw [List.foldl_map]
    have hext := List.foldl_ext (fun acc x => extractStep acc (catLine x))
      (fun acc ct' => dictInsert ct'.1 ct'.2 acc) ([] : CMCDFieldSet)
      (fun acc x hx => extractStep_catLine acc x (hmem x hx).1
        (hmem x hx).2.1 (hmem x hx).2.2)
    rw [hext]
    have hia := insertAll_of_fresh (ct :: rest) [] hnd
      (fun a _ => List.not_mem_nil a)
    unfold insertAll at hia
    rw [List.nil_append] at hia
    exact hia

/-- C9 (amended): extraction is idempotent under the spec's re-encoding
(each category rendered as `CMCD-<category>: k1=v1,k2=v2`, lines joined by
newlines) provided the extracted mapping satisfies `GoodFieldSet`: its
category keys and attribute values are whitespace-stripped (the condition the
counterexample breaks via a quoted value hiding edge whitespace) together
with the structural facts extraction guarantees (unique keys at both levels,
keys free of `=`/`,`/newline, values free of `,`/newline and edge quotes,
lowercase categories free of `CMCD-` and `:`). -/
theorem c9_idempotent_amended (s : PyStr)
    (h : GoodFieldSet (extract_cmcd_headers s)) :
    extract_cmcd_headers (serializeCMCD (extract_cmcd_headers s))
      = extract_cmcd_headers s :=
  cmcd_roundtrip (extract_cmcd_headers s) h

/-- Witness for `c9_idempotent_amended` at a two-category header block. -/
theorem c9_idempotent_witness :
    GoodFieldSet (extract_cmcd_headers c9good) ∧
    extract_cmcd_headers (serializeCMCD (extract_cmcd_headers c9good))
      = extract_cmcd_headers c9good :=
  ⟨by decide, c9_idempotent_amended c9good (by decide)⟩
